import Mathlib

/-!
Shallow embedding of the cyrano EFP message codec (files `src/enums.rs`,
`src/error.rs`, `src/utils.rs`, `src/fencer.rs`, `src/referee.rs`,
`src/message.rs`).  Wire strings are modelled as lists of characters
(`Str`); Rust's `str::split`, `str::trim`, `str::trim_matches`,
`to_uppercase` and `u8::from_str` are translated into executable Lean
functions below.
-/

namespace Cyrano

/-- Wire strings are lists of characters. -/
abbrev Str := List Char

/-- Translation of Rust `str::split(sep)`: the list of separator-free chunks
between occurrences of `sep`, empty chunks kept, always at least one chunk. -/
def splitChar (sep : Char) : Str → List Str
  | [] => [[]]
  | c :: rest =>
    let r := splitChar sep rest
    if c = sep then [] :: r else (c :: r.headD []) :: r.tail

/-- Drop the maximal run of elements satisfying `p` at the end of a list
(Rust's `rev().skip_while(p).rev()` idiom, and the suffix half of `trim`). -/
def rtrimP {α : Type} (p : α → Bool) (l : List α) : List α :=
  (l.reverse.dropWhile p).reverse

/-- Translation of Rust `str::trim`: whitespace removed from both ends. -/
def trimWs (s : Str) : Str :=
  rtrimP Char.isWhitespace (s.dropWhile Char.isWhitespace)

/-- Translation of Rust `str::trim_matches(pat)` for a single-character
pattern: all leading and trailing occurrences of `pat` removed. -/
def trimMatches (pat : Char) (s : Str) : Str :=
  rtrimP (fun c => c == pat) (s.dropWhile (fun c => c == pat))

/-- Translation of Rust `[String].join(sep)` for a one-character separator. -/
def joinSep (sep : Char) : List Str → Str
  | [] => []
  | [x] => x
  | x :: y :: xs => x ++ sep :: joinSep sep (y :: xs)

/-- Translation of Rust `u8::from_str` (via `str::parse::<u8>()`): an optional
leading `+`, then one or more decimal digits, value at most 255. -/
def parseU8 (s : Str) : Option Nat :=
  let digits := match s with
    | '+' :: rest => rest
    | _ => s
  if digits.isEmpty then none
  else if digits.all (fun c => c.isDigit) then
    let n := digits.foldl (fun acc c => acc * 10 + (c.toNat - 48)) 0
    if n ≤ 255 then some n else none
  else none

/-- Decimal rendering of a natural number (Rust `u8::to_string`), with a fuel
argument so that the recursion is structural. -/
def natToStrAux : Nat → Nat → Str
  | 0, _ => []
  | fuel + 1, n =>
    if n < 10 then [Nat.digitChar n]
    else natToStrAux fuel (n / 10) ++ [Nat.digitChar (n % 10)]

/-- Decimal rendering of a natural number (Rust `u8::to_string`). -/
def natToStr (n : Nat) : Str := natToStrAux (n + 1) n

/-- Translation of `ParseError` from `src/error.rs`. -/
inductive ParseError : Type where
  | EmptyMessage : ParseError
  | InvalidFormat : ParseError
  | MissingField : Str → ParseError
  | InvalidCommand : Str → ParseError
  | InvalidProtocol : Str → ParseError
  | InvalidValue : Str → Str → ParseError
deriving DecidableEq

deriving instance DecidableEq for Except

/-- Translation of Rust `Result::ok` on `Except` values. -/
def exceptOk {α : Type} : Except ParseError α → Option α
  | .ok a => some a
  | .error _ => none

/-- Translation of `Command` from `src/enums.rs`. -/
inductive Command : Type where
  | Hello | Disp | Ack | Nak | Info | Next | Prev
deriving DecidableEq

/-- Translation of `CompetitionType` from `src/enums.rs`. -/
inductive CompetitionType : Type where
  | Individual | Team
deriving DecidableEq

/-- Translation of `Weapon` from `src/enums.rs`. -/
inductive Weapon : Type where
  | Foil | Epee | Sabre
deriving DecidableEq

/-- Translation of `Priority` from `src/enums.rs`. -/
inductive Priority : Type where
  | None | Right | Left
deriving DecidableEq

/-- Translation of `ApparatusState` from `src/enums.rs`. -/
inductive ApparatusState : Type where
  | Fencing | Halt | Pause | Waiting | Ending
deriving DecidableEq

/-- Translation of `FencerStatus` from `src/enums.rs`. -/
inductive FencerStatus : Type where
  | Undefined | Victory | Defeat | Abandonment | Exclusion
deriving DecidableEq

/-- Translation of `Reserve` from `src/enums.rs`. -/
inductive Reserve : Type where
  | None | Introduce
deriving DecidableEq

/-- Translation of `PCard` from `src/enums.rs`. -/
inductive PCard : Type where
  | None | Yellow | OneRed | TwoRed | OneBlack | TwoBlack
deriving DecidableEq

/-- Helper for `Command::try_from`: the `match value.to_uppercase().as_str()`
body, taking the original value (for the error payload) and its uppercased
form separately. -/
def Command.matchUpper (value up : Str) : Except ParseError Command :=
  if up = "HELLO".toList then .ok .Hello
  else if up = "DISP".toList then .ok .Disp
  else if up = "ACK".toList then .ok .Ack
  else if up = "NAK".toList then .ok .Nak
  else if up = "INFO".toList then .ok .Info
  else if up = "NEXT".toList then .ok .Next
  else if up = "PREV".toList then .ok .Prev
  else .error (.InvalidCommand value)

/-- Translation of `impl TryFrom<&str> for Command`. -/
def Command.try_from (value : Str) : Except ParseError Command :=
  Command.matchUpper value (value.map Char.toUpper)

/-- Translation of `impl Display for Command`. -/
def Command.fmt : Command → Str
  | .Hello => "HELLO".toList
  | .Disp => "DISP".toList
  | .Ack => "ACK".toList
  | .Nak => "NAK".toList
  | .Info => "INFO".toList
  | .Next => "NEXT".toList
  | .Prev => "PREV".toList

/-- Translation of `impl TryFrom<&str> for CompetitionType`. -/
def CompetitionType.try_from (value : Str) : Except ParseError CompetitionType :=
  if value = "I".toList then .ok .Individual
  else if value = "T".toList then .ok .Team
  else .error (.InvalidValue "competition_type".toList value)

/-- Translation of `impl Display for CompetitionType`. -/
def CompetitionType.fmt : CompetitionType → Str
  | .Individual => "I".toList
  | .Team => "T".toList

/-- Translation of `impl TryFrom<&str> for Weapon`. -/
def Weapon.try_from (value : Str) : Except ParseError Weapon :=
  if value = "F".toList then .ok .Foil
  else if value = "E".toList then .ok .Epee
  else if value = "S".toList then .ok .Sabre
  else .error (.InvalidValue "weapon".toList value)

/-- Translation of `impl Display for Weapon`. -/
def Weapon.fmt : Weapon → Str
  | .Foil => "F".toList
  | .Epee => "E".toList
  | .Sabre => "S".toList

/-- Translation of `impl TryFrom<&str> for Priority`. -/
def Priority.try_from (value : Str) : Except ParseError Priority :=
  if value = "N".toList then .ok .None
  else if value = "R".toList then .ok .Right
  else if value = "L".toList then .ok .Left
  else .error (.InvalidValue "priority".toList value)

/-- Translation of `impl Display for Priority`. -/
def Priority.fmt : Priority → Str
  | .None => "N".toList
  | .Right => "R".toList
  | .Left => "L".toList

/-- Translation of `impl TryFrom<&str> for ApparatusState`. -/
def ApparatusState.try_from (value : Str) : Except ParseError ApparatusState :=
  if value = "F".toList then .ok .Fencing
  else if value = "H".toList then .ok .Halt
  else if value = "P".toList then .ok .Pause
  else if value = "W".toList then .ok .Waiting
  else if value = "E".toList then .ok .Ending
  else .error (.InvalidValue "state".toList value)

/-- Translation of `impl Display for ApparatusState`. -/
def ApparatusState.fmt : ApparatusState → Str
  | .Fencing => "F".toList
  | .Halt => "H".toList
  | .Pause => "P".toList
  | .Waiting => "W".toList
  | .Ending => "E".toList

/-- Translation of `impl TryFrom<&str> for FencerStatus`. -/
def FencerStatus.try_from (value : Str) : Except ParseError FencerStatus :=
  if value = "U".toList then .ok .Undefined
  else if value = "V".toList then .ok .Victory
  else if value = "D".toList then .ok .Defeat
  else if value = "A".toList then .ok .Abandonment
  else if value = "E".toList then .ok .Exclusion
  else .error (.InvalidValue "fencer_status".toList value)

/-- Translation of `impl Display for FencerStatus`. -/
def FencerStatus.fmt : FencerStatus → Str
  | .Undefined => "U".toList
  | .Victory => "V".toList
  | .Defeat => "D".toList
  | .Abandonment => "A".toList
  | .Exclusion => "E".toList

/-- Translation of `impl TryFrom<&str> for Reserve`. -/
def Reserve.try_from (value : Str) : Except ParseError Reserve :=
  if value = "N".toList then .ok .None
  else if value = "R".toList then .ok .Introduce
  else .error (.InvalidValue "reserve".toList value)

/-- Translation of `impl Display for Reserve`. -/
def Reserve.fmt : Reserve → Str
  | .None => "N".toList
  | .Introduce => "R".toList

/-- Translation of `impl TryFrom<&str> for PCard`. -/
def PCard.try_from (value : Str) : Except ParseError PCard :=
  if value = "0".toList then .ok .None
  else if value = "1".toList then .ok .Yellow
  else if value = "2".toList then .ok .OneRed
  else if value = "3".toList then .ok .TwoRed
  else if value = "4".toList then .ok .OneBlack
  else if value = "5".toList then .ok .TwoBlack
  else .error (.InvalidValue "p_card".toList value)

/-- Translation of `impl Display for PCard`. -/
def PCard.fmt : PCard → Str
  | .None => "0".toList
  | .Yellow => "1".toList
  | .OneRed => "2".toList
  | .TwoRed => "3".toList
  | .OneBlack => "4".toList
  | .TwoBlack => "5".toList

/-- Translation of `get_field` from `src/utils.rs`. -/
def get_field (fields : List Str) (index : Nat) : Option Str :=
  (fields.get? index).bind (fun s => if s.isEmpty then none else some s)

/-- Translation of `get_required_field` from `src/utils.rs`. -/
def get_required_field (fields : List Str) (index : Nat) (name : Str) :
    Except ParseError Str :=
  match get_field fields index with
  | some s => .ok s
  | none => .error (.MissingField name)

/-- Translation of `parse_optional_u8` from `src/utils.rs`. -/
def parse_optional_u8 (fields : List Str) (index : Nat) : Option Nat :=
  (get_field fields index).bind parseU8

/-- Translation of `parse_optional_bool` from `src/utils.rs`. -/
def parse_optional_bool (fields : List Str) (index : Nat) : Option Bool :=
  (get_field fields index).map (fun s => s == "1".toList)

/-- Translation of `Referee` from `src/referee.rs`. -/
structure Referee : Type where
  id : Option Str
  name : Option Str
  nation : Option Str
deriving DecidableEq

/-- Translation of `Fencer` from `src/fencer.rs`. -/
structure Fencer : Type where
  id : Option Str
  name : Option Str
  nation : Option Str
  score : Option Nat
  status : Option FencerStatus
  yellow_card : Option Nat
  red_card : Option Nat
  light : Option Bool
  white_light : Option Bool
  medical : Option Nat
  reserve : Option Reserve
  p_card : Option PCard
deriving DecidableEq

/-- Translation of the derived `Default` for `Fencer`: every field absent. -/
def Fencer.default : Fencer :=
  ⟨none, none, none, none, none, none, none, none, none, none, none, none⟩

/-- The record built by `Fencer::parse` from `src/fencer.rs`. -/
def Fencer.parsed (fields : List Str) : Fencer :=
  { id := get_field fields 0
    name := get_field fields 1
    nation := get_field fields 2
    score := parse_optional_u8 fields 3
    status := (get_field fields 4).bind (fun s => exceptOk (FencerStatus.try_from s))
    yellow_card := parse_optional_u8 fields 5
    red_card := parse_optional_u8 fields 6
    light := parse_optional_bool fields 7
    white_light := parse_optional_bool fields 8
    medical := parse_optional_u8 fields 9
    reserve := (get_field fields 10).bind (fun s => exceptOk (Reserve.try_from s))
    p_card := (get_field fields 11).bind (fun s => exceptOk (PCard.try_from s)) }

/-- Translation of `Fencer::parse` from `src/fencer.rs`: builds the record of
optional fields and wraps it in `Ok` (the function has no failure path). -/
def Fencer.parse (fields : List Str) : Except ParseError Fencer :=
  .ok (Fencer.parsed fields)

/-- The 12-entry field vector built by `Fencer::serialize` before trailing
empty fields are removed. -/
def Fencer.fieldList (f : Fencer) : List Str :=
  [f.id.getD [], f.name.getD [], f.nation.getD [],
   (f.score.map natToStr).getD [],
   (f.status.map FencerStatus.fmt).getD [],
   (f.yellow_card.map natToStr).getD [],
   (f.red_card.map natToStr).getD [],
   (f.light.map (fun v => if v then "1".toList else "0".toList)).getD [],
   (f.white_light.map (fun v => if v then "1".toList else "0".toList)).getD [],
   (f.medical.map natToStr).getD [],
   (f.reserve.map Reserve.fmt).getD [],
   (f.p_card.map PCard.fmt).getD []]

/-- Translation of `Fencer::serialize` from `src/fencer.rs`: render the 12
fields, drop the trailing run of empty fields, join with `|`. -/
def Fencer.serialize (f : Fencer) : Str :=
  joinSep '|' (rtrimP List.isEmpty (Fencer.fieldList f))

/-- Translation of `Message` from `src/message.rs`. -/
structure Message : Type where
  protocol : Str
  command : Command
  piste : Str
  competition_id : Str
  phase : Option Nat
  pool_tableau : Option Str
  match_number : Option Nat
  round : Option Nat
  time : Option Str
  stopwatch : Option Str
  competition_type : Option CompetitionType
  weapon : Option Weapon
  priority : Option Priority
  state : Option ApparatusState
  referee : Referee
  right_fencer : Fencer
  left_fencer : Fencer
deriving DecidableEq

/-- Zone list of a (pre-trimmed) raw line: strip surrounding pipes and split
on `%` (lines 107-108 of `src/message.rs`). -/
def zonesOf (t : Str) : List Str :=
  splitChar '%' (trimMatches '|' t)

/-- General-zone field tokens of a (pre-trimmed) raw line: zone 0 with
surrounding pipes stripped, split on `|` (line 114 of `src/message.rs`). -/
def generalFieldsOf (t : Str) : List Str :=
  splitChar '|' (trimMatches '|' ((zonesOf t).headD []))

/-- The fencer-zone step of `Message::try_from` (`src/message.rs`, lines
144-156): if the zone exists, strip its surrounding pipes, split on `|` and
run `Fencer::parse`; otherwise use the default fencer. -/
def parseFencerZone (oz : Option Str) : Except ParseError Fencer :=
  match oz with
  | some z => Fencer.parse (splitChar '|' (trimMatches '|' z))
  | none => .ok Fencer.default

/-- Translation of `impl TryFrom<&str> for Message` (`src/message.rs`,
lines 100-178). -/
def Message.try_from (raw : Str) : Except ParseError Message :=
  let t := trimWs raw
  if t.isEmpty then .error .EmptyMessage
  else
    let zones := zonesOf t
    if zones.isEmpty then .error .InvalidFormat
    else
      let general_fields := generalFieldsOf t
      match get_required_field general_fields 0 "protocol".toList with
      | .error e => .error e
      | .ok protocol =>
        if protocol ≠ "EFP1.1".toList ∧ protocol ≠ "EFP1".toList then
          .error (.InvalidProtocol protocol)
        else
          match get_required_field general_fields 1 "command".toList with
          | .error e => .error e
          | .ok ctok =>
            match Command.try_from ctok with
            | .error e => .error e
            | .ok command =>
              match parseFencerZone (zones.get? 1) with
              | .error e => .error e
              | .ok right_fencer =>
                match parseFencerZone (zones.get? 2) with
                | .error e => .error e
                | .ok left_fencer =>
                  .ok { protocol := protocol
                        command := command
                        piste := (get_field general_fields 2).getD []
                        competition_id := (get_field general_fields 3).getD []
                        phase := parse_optional_u8 general_fields 4
                        pool_tableau := get_field general_fields 5
                        match_number := parse_optional_u8 general_fields 6
                        round := parse_optional_u8 general_fields 7
                        time := get_field general_fields 8
                        stopwatch := get_field general_fields 9
                        competition_type := (get_field general_fields 10).bind
                          (fun s => exceptOk (CompetitionType.try_from s))
                        weapon := (get_field general_fields 11).bind
                          (fun s => exceptOk (Weapon.try_from s))
                        priority := (get_field general_fields 12).bind
                          (fun s => exceptOk (Priority.try_from s))
                        state := (get_field general_fields 13).bind
                          (fun s => exceptOk (ApparatusState.try_from s))
                        referee := { id := get_field general_fields 14
                                     name := get_field general_fields 15
                                     nation := get_field general_fields 16 }
                        right_fencer := right_fencer
                        left_fencer := left_fencer }

/-- The 17-entry general field vector built by `impl Display for Message`. -/
def Message.generalFieldList (m : Message) : List Str :=
  [m.protocol, Command.fmt m.command, m.piste, m.competition_id,
   (m.phase.map natToStr).getD [],
   m.pool_tableau.getD [],
   (m.match_number.map natToStr).getD [],
   (m.round.map natToStr).getD [],
   m.time.getD [],
   m.stopwatch.getD [],
   (m.competition_type.map CompetitionType.fmt).getD [],
   (m.weapon.map Weapon.fmt).getD [],
   (m.priority.map Priority.fmt).getD [],
   (m.state.map ApparatusState.fmt).getD [],
   m.referee.id.getD [],
   m.referee.name.getD [],
   m.referee.nation.getD []]

/-- Translation of `impl Display for Message` (`src/message.rs`,
lines 191-242): `|<general>|%|<right>|%|<left>|%|`. -/
def Message.fmt (m : Message) : Str :=
  ['|'] ++ joinSep '|' (Message.generalFieldList m) ++ ['|', '%', '|'] ++
    Fencer.serialize m.right_fencer ++ ['|', '%', '|'] ++
    Fencer.serialize m.left_fencer ++ ['|', '%', '|']

/-- The fencer produced by a (possibly missing) fencer zone; `parseFencerZone`
always succeeds with this value. -/
def fencerOfZone (oz : Option Str) : Fencer :=
  match oz with
  | some z => Fencer.parsed (splitChar '|' (trimMatches '|' z))
  | none => Fencer.default

/-- The message built by a successful run of `Message::try_from` on the
trimmed input `t`, given the already-validated protocol and command. -/
def Message.parsed (t : Str) (protocol : Str) (command : Command) : Message :=
  { protocol := protocol
    command := command
    piste := (get_field (generalFieldsOf t) 2).getD []
    competition_id := (get_field (generalFieldsOf t) 3).getD []
    phase := parse_optional_u8 (generalFieldsOf t) 4
    pool_tableau := get_field (generalFieldsOf t) 5
    match_number := parse_optional_u8 (generalFieldsOf t) 6
    round := parse_optional_u8 (generalFieldsOf t) 7
    time := get_field (generalFieldsOf t) 8
    stopwatch := get_field (generalFieldsOf t) 9
    competition_type := (get_field (generalFieldsOf t) 10).bind
      (fun s => exceptOk (CompetitionType.try_from s))
    weapon := (get_field (generalFieldsOf t) 11).bind
      (fun s => exceptOk (Weapon.try_from s))
    priority := (get_field (generalFieldsOf t) 12).bind
      (fun s => exceptOk (Priority.try_from s))
    state := (get_field (generalFieldsOf t) 13).bind
      (fun s => exceptOk (ApparatusState.try_from s))
    referee := { id := get_field (generalFieldsOf t) 14
                 name := get_field (generalFieldsOf t) 15
                 nation := get_field (generalFieldsOf t) 16 }
    right_fencer := fencerOfZone ((zonesOf t).get? 1)
    left_fencer := fencerOfZone ((zonesOf t).get? 2) }

/-- A wire-safe string: one that contains neither the field separator `|`
nor the zone separator `%`. -/
def cleanStr (s : Str) : Prop := '|' ∉ s ∧ '%' ∉ s

/-- A wire-safe optional string. -/
def cleanOpt (o : Option Str) : Prop := ∀ s, o = some s → cleanStr s

/-- Wire safety of the free-text fields of a fencer (all other fencer fields
are rendered as digits or fixed enumeration tokens). -/
def Fencer.wfStrings (f : Fencer) : Prop :=
  cleanOpt f.id ∧ cleanOpt f.name ∧ cleanOpt f.nation

/-- Wire safety of a message: the protocol is one of the two recognized
literals and every free-text field is wire-safe.  Every message produced by
a successful `Message::try_from` satisfies this. -/
def Message.wfStrings (m : Message) : Prop :=
  (m.protocol = "EFP1.1".toList ∨ m.protocol = "EFP1".toList) ∧
  cleanStr m.piste ∧ cleanStr m.competition_id ∧
  cleanOpt m.pool_tableau ∧ cleanOpt m.time ∧ cleanOpt m.stopwatch ∧
  cleanOpt m.referee.id ∧ cleanOpt m.referee.name ∧ cleanOpt m.referee.nation ∧
  Fencer.wfStrings m.right_fencer ∧ Fencer.wfStrings m.left_fencer

/-- The message decoded from `|EFP1.1|HELLO|17|fm-eq|%|` (used as a concrete
evaluation point for witnesses below). -/
def msgHello : Message :=
  { protocol := "EFP1.1".toList
    command := Command.Hello
    piste := "17".toList
    competition_id := "fm-eq".toList
    phase := none, pool_tableau := none, match_number := none, round := none
    time := none, stopwatch := none, competition_type := none, weapon := none
    priority := none, state := none
    referee := ⟨none, none, none⟩
    right_fencer := Fencer.default
    left_fencer := Fencer.default }

/-- The message decoded from `|EFP1|HELLO|` (a one-zone line, used as a
concrete evaluation point for witnesses below). -/
def msgBare : Message :=
  { protocol := "EFP1".toList
    command := Command.Hello
    piste := []
    competition_id := []
    phase := none, pool_tableau := none, match_number := none, round := none
    time := none, stopwatch := none, competition_type := none, weapon := none
    priority := none, state := none
    referee := ⟨none, none, none⟩
    right_fencer := Fencer.default
    left_fencer := Fencer.default }

/-! Generic lemmas about `splitChar`, `rtrimP`, `joinSep` and `get_field`. -/

theorem splitChar_ne_nil (sep : Char) (s : Str) : splitChar sep s ≠ [] := by
  cases s with
  | nil => simp [splitChar]
  | cons c rest =>
    simp only [splitChar]
    by_cases h : c = sep <;> simp [h]

theorem splitChar_cons_sep (sep : Char) (s : Str) :
    splitChar sep (sep :: s) = [] :: splitChar sep s := by
  simp [splitChar]

theorem splitChar_cons_ne (sep c : Char) (s : Str) (h : c ≠ sep) :
    splitChar sep (c :: s) =
      (c :: (splitChar sep s).headD []) :: (splitChar sep s).tail := by
  simp [splitChar, h]

theorem splitChar_of_not_mem (sep : Char) (s : Str) (h : sep ∉ s) :
    splitChar sep s = [s] := by
  induction s with
  | nil => simp [splitChar]
  | cons c rest ih =>
    have hc : c ≠ sep := fun hcs => h (hcs ▸ List.mem_cons_self c rest)
    have hrest : sep ∉ rest := fun hm => h (List.mem_cons_of_mem c hm)
    rw [splitChar_cons_ne sep c rest hc, ih hrest]
    simp

theorem splitChar_append_sep_cons (sep : Char) (a b : Str) (h : sep ∉ a) :
    splitChar sep (a ++ sep :: b) = a :: splitChar sep b := by
  induction a with
  | nil => simpa using splitChar_cons_sep sep b
  | cons c rest ih =>
    have hc : c ≠ sep := fun hcs => h (hcs ▸ List.mem_cons_self c rest)
    have hrest : sep ∉ rest := fun hm => h (List.mem_cons_of_mem c hm)
    rw [List.cons_append, splitChar_cons_ne sep c _ hc, ih hrest]
    simp

theorem splitChar_append_sep (sep : Char) (s : Str) :
    splitChar sep (s ++ [sep]) = splitChar sep s ++ [[]] := by
  induction s with
  | nil => simp [splitChar]
  | cons c rest ih =>
    by_cases h : c = sep
    · subst h
      rw [List.cons_append, splitChar_cons_sep, splitChar_cons_sep, ih]
      simp
    · rw [List.cons_append, splitChar_cons_ne sep c _ h, splitChar_cons_ne sep c _ h, ih]
      obtain ⟨t, ts, hts⟩ : ∃ t ts, splitChar sep rest = t :: ts := by
        cases hsp : splitChar sep rest with
        | nil => exact absurd hsp (splitChar_ne_nil sep rest)
        | cons t ts => exact ⟨t, ts, rfl⟩
      simp [hts]

theorem mem_of_mem_splitChar (sep : Char) (s t : Str) (c : Char)
    (ht : t ∈ splitChar sep s) (hc : c ∈ t) : c ∈ s := by
  induction s generalizing t with
  | nil =>
    simp [splitChar] at ht
    subst ht
    exact absurd hc (List.not_mem_nil c)
  | cons x rest ih =>
    by_cases h : x = sep
    · rw [h, splitChar_cons_sep] at ht
      rcases List.mem_cons.mp ht with h1 | h1
      · subst h1; exact absurd hc (List.not_mem_nil c)
      · exact List.mem_cons_of_mem _ (ih t h1 hc)
    · rw [splitChar_cons_ne sep x rest h] at ht
      obtain ⟨hd, tl, hts⟩ : ∃ hd tl, splitChar sep rest = hd :: tl := by
        cases hsp : splitChar sep rest with
        | nil => exact absurd hsp (splitChar_ne_nil sep rest)
        | cons hd tl => exact ⟨hd, tl, rfl⟩
      rw [hts] at ht
      simp only [List.headD_cons, List.tail_cons] at ht
      rcases List.mem_cons.mp ht with h1 | h1
      · subst h1
        rcases List.mem_cons.mp hc with h2 | h2
        · exact h2 ▸ List.mem_cons_self x rest
        · exact List.mem_cons_of_mem _ (ih hd (hts ▸ List.mem_cons_self hd tl) h2)
      · exact List.mem_cons_of_mem _ (ih t (hts ▸ List.mem_cons_of_mem hd h1) hc)

theorem not_sep_mem_splitChar (sep : Char) (s t : Str)
    (ht : t ∈ splitChar sep s) : sep ∉ t := by
  induction s generalizing t with
  | nil =>
    simp [splitChar] at ht
    subst ht
    exact List.not_mem_nil sep
  | cons x rest ih =>
    by_cases h : x = sep
    · rw [h, splitChar_cons_sep] at ht
      rcases List.mem_cons.mp ht with h1 | h1
      · subst h1; exact List.not_mem_nil sep
      · exact ih t h1
    · rw [splitChar_cons_ne sep x rest h] at ht
      obtain ⟨hd, tl, hts⟩ : ∃ hd tl, splitChar sep rest = hd :: tl := by
        cases hsp : splitChar sep rest with
        | nil => exact absurd hsp (splitChar_ne_nil sep rest)
        | cons hd tl => exact ⟨hd, tl, rfl⟩
      rw [hts] at ht
      simp only [List.headD_cons, List.tail_cons] at ht
      rcases List.mem_cons.mp ht with h1 | h1
      · subst h1
        intro hmem
        rcases List.mem_cons.mp hmem with h2 | h2
        · exact h (h2.symm)
        · exact ih hd (hts ▸ List.mem_cons_self hd tl) h2
      · exact ih t (hts ▸ List.mem_cons_of_mem hd h1)

theorem joinSep_cons (sep : Char) (x : Str) (xs : List Str) (h : xs ≠ []) :
    joinSep sep (x :: xs) = x ++ sep :: joinSep sep xs := by
  cases xs with
  | nil => exact absurd rfl h
  | cons y ys => rfl

theorem splitChar_joinSep (sep : Char) (fs : List Str) (hne : fs ≠ [])
    (hfree : ∀ f ∈ fs, sep ∉ f) :
    splitChar sep (joinSep sep fs) = fs := by
  induction fs with
  | nil => exact absurd rfl hne
  | cons x xs ih =>
    cases xs with
    | nil =>
      show splitChar sep (joinSep sep [x]) = [x]
      have : joinSep sep [x] = x := rfl
      rw [this]
      exact splitChar_of_not_mem sep x (hfree x (List.mem_cons_self x []))
    | cons y ys =>
      rw [joinSep_cons sep x (y :: ys) (by simp)]
      rw [splitChar_append_sep_cons sep x _ (hfree x (List.mem_cons_self x _))]
      rw [ih (by simp) (fun f hf => hfree f (List.mem_cons_of_mem x hf))]

theorem mem_joinSep (sep : Char) (fs : List Str) (c : Char)
    (hc : c ∈ joinSep sep fs) : c = sep ∨ ∃ f ∈ fs, c ∈ f := by
  induction fs with
  | nil => simp [joinSep] at hc
  | cons x xs ih =>
    cases xs with
    | nil =>
      right
      exact ⟨x, List.mem_cons_self x [], hc⟩
    | cons y ys =>
      rw [joinSep_cons sep x (y :: ys) (by simp)] at hc
      rcases List.mem_append.mp hc with h1 | h1
      · right; exact ⟨x, List.mem_cons_self x _, h1⟩
      · rcases List.mem_cons.mp h1 with h2 | h2
        · left; exact h2
        · rcases ih h2 with h3 | ⟨f, hf, hcf⟩
          · left; exact h3
          · right; exact ⟨f, List.mem_cons_of_mem x hf, hcf⟩

/-! Lemmas about `rtrimP`. -/

theorem rtrimP_nil {α : Type} (p : α → Bool) : rtrimP p [] = [] := rfl

theorem rtrimP_cons {α : Type} (p : α → Bool) (x : α) (xs : List α) :
    rtrimP p (x :: xs) =
      if (rtrimP p xs).isEmpty then (if p x then [] else [x])
      else x :: rtrimP p xs := by
  cases hd : List.dropWhile p xs.reverse with
  | nil =>
    have h1 : rtrimP p xs = [] := by simp [rtrimP, hd]
    by_cases hp : p x
    · have h2 : rtrimP p (x :: xs) = [] := by
        simp [rtrimP, List.reverse_cons, List.dropWhile_append, hd, List.dropWhile, hp]
      simp [h2, h1, hp]
    · have h2 : rtrimP p (x :: xs) = [x] := by
        simp [rtrimP, List.reverse_cons, List.dropWhile_append, hd, List.dropWhile, hp]
      simp [h2, h1, hp]
  | cons y ys =>
    have h1 : rtrimP p xs = (y :: ys).reverse := by simp [rtrimP, hd]
    have h2 : rtrimP p (x :: xs) = x :: rtrimP p xs := by
      simp [rtrimP, List.reverse_cons, List.dropWhile_append, hd]
    simp [h2, h1, List.isEmpty_iff]

theorem rtrimP_eq_nil_iff {α : Type} (p : α → Bool) (l : List α) :
    rtrimP p l = [] ↔ ∀ a ∈ l, p a := by
  simp only [rtrimP, List.reverse_eq_nil_iff, List.dropWhile_eq_nil_iff, List.mem_reverse]

theorem rtrimP_append_pos {α : Type} (p : α → Bool) (l : List α) (a : α)
    (h : p a) : rtrimP p (l ++ [a]) = rtrimP p l := by
  simp [rtrimP, List.dropWhile_cons, h]

theorem rtrimP_append_neg {α : Type} (p : α → Bool) (l : List α) (a : α)
    (h : ¬ p a) : rtrimP p (l ++ [a]) = l ++ [a] := by
  simp [rtrimP, List.dropWhile_cons, h]

theorem mem_of_mem_rtrimP {α : Type} (p : α → Bool) (l : List α) (a : α)
    (h : a ∈ rtrimP p l) : a ∈ l := by
  simp only [rtrimP, List.mem_reverse] at h
  exact List.mem_reverse.mp ((List.dropWhile_sublist p).mem h)

theorem headD_mem {α : Type} (l : List α) (d : α) (h : l ≠ []) :
    l.headD d ∈ l := by
  cases l with
  | nil => exact absurd rfl h
  | cons x xs => exact List.mem_cons_self x xs

/-! Lemmas about `get_field`. -/

theorem get_field_mem (fields : List Str) (i : Nat) (s : Str)
    (h : get_field fields i = some s) : s ∈ fields ∧ s ≠ [] := by
  unfold get_field at h
  cases hg : fields.get? i with
  | none => rw [hg] at h; simp at h
  | some t =>
    rw [hg] at h
    by_cases ht : t.isEmpty
    · rw [Option.some_bind, if_pos ht] at h
      exact absurd h (by simp)
    · simp only [Option.some_bind, if_neg ht, Option.some.injEq] at h
      subst h
      exact ⟨List.get?_mem hg, by simpa [List.isEmpty_iff] using ht⟩

theorem get_field_of_all_empty (fields : List Str) (i : Nat)
    (h : ∀ t ∈ fields, t = []) : get_field fields i = none := by
  unfold get_field
  cases hg : fields.get? i with
  | none => rfl
  | some t =>
    have ht : t = [] := h t (List.get?_mem hg)
    subst ht
    simp

theorem get_field_append_nil (fields : List Str) (i : Nat) :
    get_field (fields ++ [[]]) i = get_field fields i := by
  induction fields generalizing i with
  | nil => cases i <;> rfl
  | cons x xs ih =>
    cases i with
    | zero => rfl
    | succ j => exact ih j

theorem get_field_rtrimP (fields : List Str) (i : Nat) :
    get_field (rtrimP List.isEmpty fields) i = get_field fields i := by
  induction fields generalizing i with
  | nil => rfl
  | cons x xs ih =>
    rw [rtrimP_cons]
    by_cases h : (rtrimP List.isEmpty xs).isEmpty
    · rw [if_pos h]
      have hall : ∀ t ∈ xs, t = [] := by
        have h1 := (rtrimP_eq_nil_iff List.isEmpty xs).mp (List.isEmpty_iff.mp h)
        intro t ht
        exact List.isEmpty_iff.mp (h1 t ht)
      by_cases hx : x.isEmpty
      · rw [if_pos hx]
        have h2 : get_field (x :: xs) i = none := by
          apply get_field_of_all_empty
          intro t ht
          rcases List.mem_cons.mp ht with h3 | h3
          · exact h3 ▸ List.isEmpty_iff.mp hx
          · exact hall t h3
        rw [h2]
        cases i <;> rfl
      · rw [if_neg hx]
        cases i with
        | zero => rfl
        | succ j =>
          have h2 : get_field xs j = none := get_field_of_all_empty xs j hall
          exact h2.symm
    · rw [if_neg h]
      cases i with
      | zero => rfl
      | succ j => exact ih j

/-! Lemmas relating `splitChar` to `rtrimP`. -/

theorem splitChar_all_sep (sep : Char) (s : Str) (h : ∀ c ∈ s, c = sep) :
    splitChar sep s = List.replicate (s.length + 1) [] := by
  induction s with
  | nil => simp [splitChar]
  | cons x s' ih =>
    have hx : x = sep := h x (List.mem_cons_self x s')
    rw [hx, splitChar_cons_sep, ih (fun c hc => h c (List.mem_cons_of_mem x hc))]
    simp [List.replicate_succ]

theorem char_cases_splitChar (sep : Char) (s : Str) (c : Char) (hc : c ∈ s) :
    c = sep ∨ ∃ t ∈ splitChar sep s, c ∈ t := by
  induction s with
  | nil => cases hc
  | cons x s' ih =>
    by_cases hx : x = sep
    · rcases List.mem_cons.mp hc with h1 | h1
      · left; exact h1.trans hx
      · rcases ih h1 with h2 | ⟨t, ht, hct⟩
        · left; exact h2
        · right
          refine ⟨t, ?_, hct⟩
          rw [hx, splitChar_cons_sep]
          exact List.mem_cons_of_mem _ ht
    · obtain ⟨hd, tl, hts⟩ : ∃ hd tl, splitChar sep s' = hd :: tl := by
        cases hsp : splitChar sep s' with
        | nil => exact absurd hsp (splitChar_ne_nil sep s')
        | cons hd tl => exact ⟨hd, tl, rfl⟩
      have hsplit : splitChar sep (x :: s') = (x :: hd) :: tl := by
        rw [splitChar_cons_ne sep x s' hx, hts]
        simp
      rcases List.mem_cons.mp hc with h1 | h1
      · right
        exact ⟨x :: hd, hsplit ▸ List.mem_cons_self _ tl, h1 ▸ List.mem_cons_self x hd⟩
      · rcases ih h1 with h2 | ⟨t, ht, hct⟩
        · left; exact h2
        · right
          rw [hts] at ht
          rcases List.mem_cons.mp ht with h3 | h3
          · exact ⟨x :: hd, hsplit ▸ List.mem_cons_self _ tl,
              h3 ▸ List.mem_cons_of_mem x hct⟩
          · exact ⟨t, hsplit ▸ List.mem_cons_of_mem _ h3, hct⟩

theorem exists_nonempty_token (sep : Char) (s : Str) (hs : ∃ c ∈ s, c ≠ sep) :
    ∃ t ∈ splitChar sep s, t ≠ [] := by
  rcases hs with ⟨c, hcs, hcne⟩
  rcases char_cases_splitChar sep s c hcs with h | ⟨t, ht, hct⟩
  · exact absurd h hcne
  · exact ⟨t, ht, fun h0 => by subst h0; cases hct⟩

theorem rtrimP_cons_replicate_nil (x : Str) (n : Nat) (hx : x ≠ []) :
    rtrimP List.isEmpty (x :: List.replicate n []) = [x] := by
  rw [rtrimP_cons]
  have h1 : rtrimP List.isEmpty (List.replicate n ([] : Str)) = [] :=
    (rtrimP_eq_nil_iff _ _).mpr (fun a ha => by
      have h2 := List.eq_of_mem_replicate ha
      simp [h2])
  rw [h1]
  simp [List.isEmpty_iff, hx]

theorem splitChar_rtrimP (sep : Char) (s : Str) (hs : ∃ c ∈ s, c ≠ sep) :
    splitChar sep (rtrimP (fun c => c == sep) s) =
      rtrimP List.isEmpty (splitChar sep s) := by
  induction s with
  | nil => simp at hs
  | cons c s' ih =>
    rw [rtrimP_cons]
    by_cases h : (rtrimP (fun c => c == sep) s').isEmpty
    · have hall : ∀ a ∈ s', a = sep := by
        have h1 := (rtrimP_eq_nil_iff _ s').mp (List.isEmpty_iff.mp h)
        intro a ha
        simpa using h1 a ha
      rw [if_pos h]
      by_cases hc : c = sep
      · exfalso
        rcases hs with ⟨a, ha, hne⟩
        rcases List.mem_cons.mp ha with h1 | h1
        · exact hne (h1 ▸ hc)
        · exact hne (hall a h1)
      · rw [if_neg (by simpa using hc)]
        have hleft : splitChar sep [c] = [[c]] :=
          splitChar_of_not_mem sep [c] (by simpa using fun h1 => hc h1.symm)
        have hright : splitChar sep (c :: s') = [c] :: List.replicate s'.length [] := by
          rw [splitChar_cons_ne sep c s' hc, splitChar_all_sep sep s' hall]
          simp [List.replicate_succ]
        rw [hleft, hright, rtrimP_cons_replicate_nil [c] s'.length (by simp)]
    · rw [if_neg h]
      have hs' : ∃ a ∈ s', a ≠ sep := by
        by_contra hno
        push_neg at hno
        refine h ?_
        rw [List.isEmpty_iff]
        exact (rtrimP_eq_nil_iff _ s').mpr (fun a ha => by simpa using hno a ha)
      have IH := ih hs'
      have hYne : rtrimP List.isEmpty (splitChar sep s') ≠ [] := by
        intro h0
        rcases exists_nonempty_token sep s' hs' with ⟨t, ht, htne⟩
        have := (rtrimP_eq_nil_iff List.isEmpty (splitChar sep s')).mp h0 t ht
        exact htne (List.isEmpty_iff.mp this)
      by_cases hc : c = sep
      · rw [hc, splitChar_cons_sep, splitChar_cons_sep, IH, rtrimP_cons]
        rw [if_neg (by simpa [List.isEmpty_iff] using hYne)]
      · obtain ⟨hd, tl, hts⟩ : ∃ hd tl, splitChar sep s' = hd :: tl := by
          cases hsp : splitChar sep s' with
          | nil => exact absurd hsp (splitChar_ne_nil sep s')
          | cons hd tl => exact ⟨hd, tl, rfl⟩
        rw [splitChar_cons_ne sep c _ hc, IH, splitChar_cons_ne sep c s' hc, hts]
        simp only [List.headD_cons, List.tail_cons]
        rw [hts] at hYne
        by_cases hA : (rtrimP List.isEmpty tl).isEmpty
        · rw [rtrimP_cons, if_pos hA] at hYne
          by_cases hhd : hd.isEmpty
          · rw [if_pos hhd] at hYne
            exact absurd rfl hYne
          · rw [show rtrimP List.isEmpty (hd :: tl) = [hd] by
              rw [rtrimP_cons, if_pos hA, if_neg hhd]]
            rw [show rtrimP List.isEmpty ((c :: hd) :: tl) = [c :: hd] by
              rw [rtrimP_cons, if_pos hA, if_neg (by simp)]]
            simp
        · rw [show rtrimP List.isEmpty (hd :: tl) = hd :: rtrimP List.isEmpty tl by
            rw [rtrimP_cons, if_neg hA]]
          rw [show rtrimP List.isEmpty ((c :: hd) :: tl) =
              (c :: hd) :: rtrimP List.isEmpty tl by
            rw [rtrimP_cons, if_neg hA]]
          simp

/-! Characterization of `Message.try_from`. -/

theorem parseFencerZone_eq (oz : Option Str) :
    parseFencerZone oz = .ok (fencerOfZone oz) := by
  cases oz <;> rfl

theorem zonesOf_isEmpty (t : Str) : (zonesOf t).isEmpty = false := by
  simpa [List.isEmpty_iff] using splitChar_ne_nil '%' (trimMatches '|' t)

theorem get_required_field_of_some (fields : List Str) (i : Nat) (name s : Str)
    (h : get_field fields i = some s) :
    get_required_field fields i name = .ok s := by
  unfold get_required_field
  rw [h]

theorem get_required_field_of_none (fields : List Str) (i : Nat) (name : Str)
    (h : get_field fields i = none) :
    get_required_field fields i name = .error (.MissingField name) := by
  unfold get_required_field
  rw [h]

theorem get_required_field_ok_inv (fields : List Str) (i : Nat) (name s : Str)
    (h : get_required_field fields i name = .ok s) :
    get_field fields i = some s := by
  unfold get_required_field at h
  cases hg : get_field fields i with
  | none => rw [hg] at h; cases h
  | some t => rw [hg] at h; cases h; rfl

theorem Command.try_from_error (s : Str) (e : ParseError)
    (h : Command.try_from s = .error e) : e = .InvalidCommand s := by
  unfold Command.try_from Command.matchUpper at h
  repeat' split at h
  all_goals simp_all

theorem try_from_of_empty (raw : Str) (h : (trimWs raw).isEmpty = true) :
    Message.try_from raw = .error .EmptyMessage := by
  simp only [Message.try_from]
  rw [h]
  rfl

theorem try_from_of_no_protocol (raw : Str)
    (h0 : (trimWs raw).isEmpty = false)
    (h1 : get_field (generalFieldsOf (trimWs raw)) 0 = none) :
    Message.try_from raw = .error (.MissingField "protocol".toList) := by
  simp only [Message.try_from]
  rw [h0, zonesOf_isEmpty,
    get_required_field_of_none _ _ "protocol".toList h1]
  rfl

theorem try_from_of_bad_protocol (raw p : Str)
    (h0 : (trimWs raw).isEmpty = false)
    (h1 : get_field (generalFieldsOf (trimWs raw)) 0 = some p)
    (h2 : p ≠ "EFP1.1".toList) (h3 : p ≠ "EFP1".toList) :
    Message.try_from raw = .error (.InvalidProtocol p) := by
  simp only [Message.try_from]
  rw [h0, zonesOf_isEmpty,
    get_required_field_of_some _ _ "protocol".toList _ h1]
  simp only [if_pos (And.intro h2 h3)]
  rfl

theorem try_from_of_no_command (raw p : Str)
    (h0 : (trimWs raw).isEmpty = false)
    (h1 : get_field (generalFieldsOf (trimWs raw)) 0 = some p)
    (h2 : p = "EFP1.1".toList ∨ p = "EFP1".toList)
    (h3 : get_field (generalFieldsOf (trimWs raw)) 1 = none) :
    Message.try_from raw = .error (.MissingField "command".toList) := by
  have hnp : ¬(p ≠ "EFP1.1".toList ∧ p ≠ "EFP1".toList) := by
    rcases h2 with h2 | h2 <;> simp [h2]
  simp only [Message.try_from]
  rw [h0, zonesOf_isEmpty,
    get_required_field_of_some _ _ "protocol".toList _ h1]
  simp only [if_neg hnp]
  rw [get_required_field_of_none _ _ "command".toList h3]
  rfl

theorem try_from_of_bad_command (raw p ct : Str) (e : ParseError)
    (h0 : (trimWs raw).isEmpty = false)
    (h1 : get_field (generalFieldsOf (trimWs raw)) 0 = some p)
    (h2 : p = "EFP1.1".toList ∨ p = "EFP1".toList)
    (h3 : get_field (generalFieldsOf (trimWs raw)) 1 = some ct)
    (h4 : Command.try_from ct = .error e) :
    Message.try_from raw = .error e := by
  have hnp : ¬(p ≠ "EFP1.1".toList ∧ p ≠ "EFP1".toList) := by
    rcases h2 with h2 | h2 <;> simp [h2]
  simp only [Message.try_from]
  rw [h0, zonesOf_isEmpty,
    get_required_field_of_some _ _ "protocol".toList _ h1]
  simp only [if_neg hnp]
  rw [get_required_field_of_some _ _ "command".toList _ h3]
  dsimp only
  rw [h4]
  rfl

theorem try_from_of_ok (raw p ct : Str) (c : Command)
    (h0 : (trimWs raw).isEmpty = false)
    (h1 : get_field (generalFieldsOf (trimWs raw)) 0 = some p)
    (h2 : p = "EFP1.1".toList ∨ p = "EFP1".toList)
    (h3 : get_field (generalFieldsOf (trimWs raw)) 1 = some ct)
    (h4 : Command.try_from ct = .ok c) :
    Message.try_from raw = .ok (Message.parsed (trimWs raw) p c) := by
  have hnp : ¬(p ≠ "EFP1.1".toList ∧ p ≠ "EFP1".toList) := by
    rcases h2 with h2 | h2 <;> simp [h2]
  simp only [Message.try_from]
  rw [h0, zonesOf_isEmpty,
    get_required_field_of_some _ _ "protocol".toList _ h1]
  simp only [if_neg hnp]
  rw [get_required_field_of_some _ _ "command".toList _ h3]
  dsimp only
  rw [h4]
  dsimp only
  rw [parseFencerZone_eq, parseFencerZone_eq]
  rfl

theorem try_from_inv (raw : Str) (m : Message)
    (h : Message.try_from raw = .ok m) :
    (trimWs raw).isEmpty = false ∧
    ∃ p ct c, get_field (generalFieldsOf (trimWs raw)) 0 = some p ∧
      (p = "EFP1.1".toList ∨ p = "EFP1".toList) ∧
      get_field (generalFieldsOf (trimWs raw)) 1 = some ct ∧
      Command.try_from ct = .ok c ∧
      m = Message.parsed (trimWs raw) p c := by
  simp only [Message.try_from] at h
  by_cases h0 : (trimWs raw).isEmpty
  · rw [h0] at h
    exact absurd h (by simp)
  · rw [Bool.not_eq_true] at h0
    rw [h0, zonesOf_isEmpty] at h
    refine ⟨h0, ?_⟩
    cases hg0 : get_field (generalFieldsOf (trimWs raw)) 0 with
    | none =>
      rw [get_required_field_of_none _ _ "protocol".toList hg0] at h
      exact absurd h (by simp)
    | some p =>
      rw [get_required_field_of_some _ _ "protocol".toList _ hg0] at h
      simp only at h
      by_cases hp : p ≠ "EFP1.1".toList ∧ p ≠ "EFP1".toList
      · rw [if_pos hp] at h
        exact absurd h (by simp)
      · have hor : p = "EFP1.1".toList ∨ p = "EFP1".toList := by
          by_cases ha : p = "EFP1.1".toList
          · exact Or.inl ha
          · by_cases hb : p = "EFP1".toList
            · exact Or.inr hb
            · exact absurd ⟨ha, hb⟩ hp
        rw [if_neg hp] at h
        cases hg1 : get_field (generalFieldsOf (trimWs raw)) 1 with
        | none =>
          rw [get_required_field_of_none _ _ "command".toList hg1] at h
          exact absurd h (by simp)
        | some ct =>
          rw [get_required_field_of_some _ _ "command".toList _ hg1] at h
          simp only at h
          cases hc : Command.try_from ct with
          | error e =>
            rw [hc] at h
            exact absurd h (by simp)
          | ok c =>
            rw [hc, parseFencerZone_eq, parseFencerZone_eq] at h
            simp only at h
            refine ⟨p, ct, c, rfl, hor, rfl, hc, ?_⟩
            cases h
            rfl

/-- Sanity check mirroring the Rust test `test_parse_hello`. -/
theorem sanity_parse_hello :
    Message.try_from "|EFP1.1|HELLO|17|fm-eq|%|".toList = .ok msgHello := by
  decide

/-- Helper shared by several claims: the command tokens round-trip. -/
theorem Command.fmt_try_from (c : Command) :
    Command.try_from (Command.fmt c) = .ok c := by
  cases c <;> rfl

/-- Helper shared by several claims: the `match` body of `Command::try_from`
maps every canonical token to its command, whatever the raw value was. -/
theorem Command.matchUpper_fmt (value : Str) (c : Command) :
    Command.matchUpper value (Command.fmt c) = .ok c := by
  cases c <;> rfl

/-- Helper shared by several claims: decode is case-insensitive for commands. -/
theorem Command.try_from_of_upper (c : Command) (s : Str)
    (h : s.map Char.toUpper = Command.fmt c) :
    Command.try_from s = .ok c := by
  unfold Command.try_from
  rw [h]
  exact Command.matchUpper_fmt s c

/-- Helper for C5: an unrecognized (after upper-casing) command token fails
with `InvalidCommand` carrying the raw token. -/
theorem Command.try_from_not_mem (ct : Str)
    (h : ct.map Char.toUpper ∉
      ["HELLO".toList, "DISP".toList, "ACK".toList, "NAK".toList,
       "INFO".toList, "NEXT".toList, "PREV".toList]) :
    Command.try_from ct = .error (.InvalidCommand ct) := by
  simp only [List.mem_cons, List.not_mem_nil, or_false, not_or] at h
  obtain ⟨n1, n2, n3, n4, n5, n6, n7⟩ := h
  unfold Command.try_from Command.matchUpper
  rw [if_neg n1, if_neg n2, if_neg n3, if_neg n4, if_neg n5, if_neg n6, if_neg n7]

/-- C3: every input that is empty or consists only of whitespace fails to
decode with `ParseError::EmptyMessage`. -/
theorem claim_C3 (s : Str) (h : ∀ c ∈ s, c.isWhitespace) :
    Message.try_from s = .error .EmptyMessage := by
  apply try_from_of_empty
  rw [List.isEmpty_iff]
  unfold trimWs
  rw [List.dropWhile_eq_nil_iff.mpr (fun x hx => h x hx)]
  rfl

/-- Witness for C3 at the concrete whitespace input `" \t "`. -/
theorem claim_C3_witness :
    Message.try_from " \t ".toList = .error .EmptyMessage :=
  claim_C3 " \t ".toList (by decide)

/-- C4: when the protocol token at general-zone index 0 is present but is
neither `EFP1` nor `EFP1.1`, decoding fails with `InvalidProtocol` carrying
that token; when it is absent or empty, decoding fails with
`MissingField "protocol"`, never `InvalidProtocol`. -/
theorem claim_C4 (raw : Str) (h0 : (trimWs raw).isEmpty = false) :
    (∀ p, get_field (generalFieldsOf (trimWs raw)) 0 = some p →
      p ≠ "EFP1.1".toList → p ≠ "EFP1".toList →
      Message.try_from raw = .error (.InvalidProtocol p)) ∧
    (get_field (generalFieldsOf (trimWs raw)) 0 = none →
      Message.try_from raw = .error (.MissingField "protocol".toList)) :=
  ⟨fun p h1 h2 h3 => try_from_of_bad_protocol raw p h0 h1 h2 h3,
   fun h1 => try_from_of_no_protocol raw h0 h1⟩

/-- Witness for C4 at the concrete input `|EFP2.0|HELLO|17|fm-eq|%|`
(mirroring the Rust test `test_invalid_protocol`). -/
theorem claim_C4_witness :
    Message.try_from "|EFP2.0|HELLO|17|fm-eq|%|".toList =
      .error (.InvalidProtocol "EFP2.0".toList) :=
  (claim_C4 "|EFP2.0|HELLO|17|fm-eq|%|".toList (by decide)).1
    "EFP2.0".toList (by decide) (by decide) (by decide)

/-- C5: when the protocol is recognized and the command token at index 1 is
present but (after upper-casing) is not one of the seven command tokens,
decoding fails with `InvalidCommand` carrying the raw token; when the command
token is absent or empty, decoding fails with `MissingField "command"`. -/
theorem claim_C5 (raw p : Str)
    (h0 : (trimWs raw).isEmpty = false)
    (h1 : get_field (generalFieldsOf (trimWs raw)) 0 = some p)
    (h2 : p = "EFP1.1".toList ∨ p = "EFP1".toList) :
    (∀ ct, get_field (generalFieldsOf (trimWs raw)) 1 = some ct →
      ct.map Char.toUpper ∉
        ["HELLO".toList, "DISP".toList, "ACK".toList, "NAK".toList,
         "INFO".toList, "NEXT".toList, "PREV".toList] →
      Message.try_from raw = .error (.InvalidCommand ct)) ∧
    (get_field (generalFieldsOf (trimWs raw)) 1 = none →
      Message.try_from raw = .error (.MissingField "command".toList)) :=
  ⟨fun ct h3 h4 => try_from_of_bad_command raw p ct _ h0 h1 h2 h3
      (Command.try_from_not_mem ct h4),
   fun h3 => try_from_of_no_command raw p h0 h1 h2 h3⟩

/-- Witness for C5 at the concrete input `|EFP1.1|INVALID|17|fm-eq|%|`
(mirroring the Rust test `test_invalid_command`). -/
theorem claim_C5_witness :
    Message.try_from "|EFP1.1|INVALID|17|fm-eq|%|".toList =
      .error (.InvalidCommand "INVALID".toList) :=
  (claim_C5 "|EFP1.1|INVALID|17|fm-eq|%|".toList "EFP1.1".toList
      (by decide) (by decide) (Or.inl rfl)).1
    "INVALID".toList (by decide) (by decide)

/-- C2: for each of the eight enumerations and every variant, decoding the
encoded token yields the variant back; for `Command` this also holds for any
case variation of the token (decode upper-cases before matching). -/
theorem claim_C2 :
    (∀ v : Command, Command.try_from (Command.fmt v) = .ok v) ∧
    (∀ (v : Command) (s : Str), s.map Char.toUpper = Command.fmt v →
      Command.try_from s = .ok v) ∧
    (∀ v : CompetitionType, CompetitionType.try_from (CompetitionType.fmt v) = .ok v) ∧
    (∀ v : Weapon, Weapon.try_from (Weapon.fmt v) = .ok v) ∧
    (∀ v : Priority, Priority.try_from (Priority.fmt v) = .ok v) ∧
    (∀ v : ApparatusState, ApparatusState.try_from (ApparatusState.fmt v) = .ok v) ∧
    (∀ v : FencerStatus, FencerStatus.try_from (FencerStatus.fmt v) = .ok v) ∧
    (∀ v : Reserve, Reserve.try_from (Reserve.fmt v) = .ok v) ∧
    (∀ v : PCard, PCard.try_from (PCard.fmt v) = .ok v) := by
  refine ⟨Command.fmt_try_from, fun v s h => Command.try_from_of_upper v s h,
    ?_, ?_, ?_, ?_, ?_, ?_, ?_⟩ <;> (intro v; cases v <;> rfl)

/-- Witness for C2: the lower-case token `hello` decodes to `Hello`. -/
theorem claim_C2_witness :
    Command.try_from "hello".toList = .ok Command.Hello :=
  claim_C2.2.1 Command.Hello "hello".toList (by decide)

/-- Helper for C10: classification of every error `Message::try_from` can
return. -/
theorem try_from_error_inv (raw : Str) (e : ParseError)
    (h : Message.try_from raw = .error e) :
    e = .EmptyMessage ∨ e = .MissingField "protocol".toList ∨
      e = .MissingField "command".toList ∨
      (∃ p, e = .InvalidProtocol p) ∨ (∃ ct, e = .InvalidCommand ct) := by
  by_cases h0 : (trimWs raw).isEmpty
  · rw [try_from_of_empty raw h0] at h
    simp only [Except.error.injEq] at h
    exact Or.inl h.symm
  · rw [Bool.not_eq_true] at h0
    cases hg0 : get_field (generalFieldsOf (trimWs raw)) 0 with
    | none =>
      rw [try_from_of_no_protocol raw h0 hg0] at h
      simp only [Except.error.injEq] at h
      exact Or.inr (Or.inl h.symm)
    | some p =>
      by_cases hp : p = "EFP1.1".toList ∨ p = "EFP1".toList
      · cases hg1 : get_field (generalFieldsOf (trimWs raw)) 1 with
        | none =>
          rw [try_from_of_no_command raw p h0 hg0 hp hg1] at h
          simp only [Except.error.injEq] at h
          exact Or.inr (Or.inr (Or.inl h.symm))
        | some ct =>
          cases hc : Command.try_from ct with
          | error e' =>
            rw [try_from_of_bad_command raw p ct e' h0 hg0 hp hg1 hc] at h
            simp only [Except.error.injEq] at h
            have he' := Command.try_from_error ct e' hc
            exact Or.inr (Or.inr (Or.inr (Or.inr ⟨ct, h.symm.trans he'⟩)))
          | ok c =>
            rw [try_from_of_ok raw p ct c h0 hg0 hp hg1 hc] at h
            cases h
      · have hp1 : p ≠ "EFP1.1".toList := fun h1 => hp (Or.inl h1)
        have hp2 : p ≠ "EFP1".toList := fun h1 => hp (Or.inr h1)
        rw [try_from_of_bad_protocol raw p h0 hg0 hp1 hp2] at h
        simp only [Except.error.injEq] at h
        exact Or.inr (Or.inr (Or.inr (Or.inl ⟨p, h.symm⟩)))

/-- C10: `Message::try_from` never returns `InvalidFormat` (splitting always
yields at least one zone) and never returns `InvalidValue` (`Fencer::parse`
always succeeds); the only possible errors are `EmptyMessage`,
`MissingField`, `InvalidProtocol` and `InvalidCommand`. -/
theorem claim_C10 :
    (∀ s : Str, splitChar '%' s ≠ []) ∧
    (∀ fields : List Str, Fencer.parse fields = .ok (Fencer.parsed fields)) ∧
    (∀ raw : Str, Message.try_from raw ≠ .error .InvalidFormat) ∧
    (∀ (raw f v : Str), Message.try_from raw ≠ .error (.InvalidValue f v)) ∧
    (∀ (raw : Str) (e : ParseError), Message.try_from raw = .error e →
      e = .EmptyMessage ∨ (∃ n, e = .MissingField n) ∨
        (∃ p, e = .InvalidProtocol p) ∨ (∃ ct, e = .InvalidCommand ct)) := by
  have hmain : ∀ (raw : Str) (e : ParseError), Message.try_from raw = .error e →
      e = .EmptyMessage ∨ (∃ n, e = .MissingField n) ∨
        (∃ p, e = .InvalidProtocol p) ∨ (∃ ct, e = .InvalidCommand ct) := by
    intro raw e h
    rcases try_from_error_inv raw e h with h1 | h1 | h1 | h1 | h1
    · exact Or.inl h1
    · exact Or.inr (Or.inl ⟨_, h1⟩)
    · exact Or.inr (Or.inl ⟨_, h1⟩)
    · exact Or.inr (Or.inr (Or.inl h1))
    · exact Or.inr (Or.inr (Or.inr h1))
  refine ⟨fun s => splitChar_ne_nil '%' s, fun fields => rfl, ?_, ?_, hmain⟩
  · intro raw h
    rcases hmain raw _ h with h1 | ⟨n, h1⟩ | ⟨p, h1⟩ | ⟨ct, h1⟩ <;> cases h1
  · intro raw f v h
    rcases hmain raw _ h with h1 | ⟨n, h1⟩ | ⟨p, h1⟩ | ⟨ct, h1⟩ <;> cases h1

/-- Witness for C10 at a concrete input. -/
theorem claim_C10_witness :
    Message.try_from "|garbage|".toList ≠ .error .InvalidFormat :=
  claim_C10.2.2.1 "|garbage|".toList

/-- C6: a present but unparseable token in an optional numeric or optional
enumeration position decodes to `none` without error, and such fields can
never make `Fencer::parse` or `Message::try_from` fail: decoding succeeds
whenever the input is nonempty and protocol and command decode. -/
theorem claim_C6 :
    (∀ (fields : List Str) (i : Nat) (s : Str), get_field fields i = some s →
      parseU8 s = none → parse_optional_u8 fields i = none) ∧
    (∀ {β : Type} (tf : Str → Except ParseError β) (fields : List Str)
      (i : Nat) (s : Str) (e : ParseError), get_field fields i = some s →
      tf s = .error e →
      (get_field fields i).bind (fun x => exceptOk (tf x)) = none) ∧
    (∀ fields : List Str, Fencer.parse fields = .ok (Fencer.parsed fields)) ∧
    (∀ (raw p ct : Str) (c : Command), (trimWs raw).isEmpty = false →
      get_field (generalFieldsOf (trimWs raw)) 0 = some p →
      (p = "EFP1.1".toList ∨ p = "EFP1".toList) →
      get_field (generalFieldsOf (trimWs raw)) 1 = some ct →
      Command.try_from ct = .ok c →
      ∃ m, Message.try_from raw = .ok m) := by
  refine ⟨?_, ?_, fun fields => rfl, ?_⟩
  · intro fields i s h1 h2
    unfold parse_optional_u8
    rw [h1, Option.some_bind, h2]
  · intro β tf fields i s e h1 h2
    rw [h1, Option.some_bind, h2]
    rfl
  · intro raw p ct c h0 h1 h2 h3 h4
    exact ⟨_, try_from_of_ok raw p ct c h0 h1 h2 h3 h4⟩

/-- Witness for C6: the garbage token `xx` in optional numeric position
decodes to `none`. -/
theorem claim_C6_witness :
    parse_optional_u8 ["xx".toList] 0 = none :=
  claim_C6.1 ["xx".toList] 0 "xx".toList (by decide) (by decide)

/-- C8: a successfully decoded line with fewer than two zones gets the
all-absent default right fencer, and with fewer than three zones the
all-absent default left fencer. -/
theorem claim_C8 (raw : Str) (m : Message)
    (h : Message.try_from raw = .ok m) :
    ((zonesOf (trimWs raw)).length < 2 → m.right_fencer = Fencer.default) ∧
    ((zonesOf (trimWs raw)).length < 3 → m.left_fencer = Fencer.default) := by
  obtain ⟨h0, p, ct, c, hg0, hor, hg1, hc, hm⟩ := try_from_inv raw m h
  subst hm
  constructor
  · intro hl
    show fencerOfZone ((zonesOf (trimWs raw)).get? 1) = Fencer.default
    rw [List.get?_eq_none.mpr (by omega)]
    rfl
  · intro hl
    show fencerOfZone ((zonesOf (trimWs raw)).get? 2) = Fencer.default
    rw [List.get?_eq_none.mpr (by omega)]
    rfl

/-- Witness for C8 at the one-zone input `|EFP1|HELLO|`. -/
theorem claim_C8_witness :
    Message.try_from "|EFP1|HELLO|".toList = .ok msgBare ∧
      msgBare.right_fencer = Fencer.default ∧
      msgBare.left_fencer = Fencer.default :=
  ⟨by decide,
   (claim_C8 "|EFP1|HELLO|".toList msgBare (by decide)).1 (by decide),
   (claim_C8 "|EFP1|HELLO|".toList msgBare (by decide)).2 (by decide)⟩

/-- C9: when protocol and command decode, absence (or emptiness) of the piste
token at index 2 and the competition id token at index 3 does not abort
decoding: the message decodes with empty piste and competition id, and later
general fields such as the state at index 13 are still decoded. -/
theorem claim_C9 (raw p ct : Str) (c : Command)
    (h0 : (trimWs raw).isEmpty = false)
    (h1 : get_field (generalFieldsOf (trimWs raw)) 0 = some p)
    (h2 : p = "EFP1.1".toList ∨ p = "EFP1".toList)
    (h3 : get_field (generalFieldsOf (trimWs raw)) 1 = some ct)
    (h4 : Command.try_from ct = .ok c)
    (h5 : get_field (generalFieldsOf (trimWs raw)) 2 = none)
    (h6 : get_field (generalFieldsOf (trimWs raw)) 3 = none) :
    ∃ m, Message.try_from raw = .ok m ∧ m.piste = [] ∧
      m.competition_id = [] ∧
      m.state = (get_field (generalFieldsOf (trimWs raw)) 13).bind
        (fun s => exceptOk (ApparatusState.try_from s)) := by
  refine ⟨Message.parsed (trimWs raw) p c,
    try_from_of_ok raw p ct c h0 h1 h2 h3 h4, ?_, ?_, ?_⟩
  · simp only [Message.parsed]
    rw [h5]
    rfl
  · simp only [Message.parsed]
    rw [h6]
    rfl
  · simp only [Message.parsed]

/-- Witness for C9 at the concrete input `|EFP1.1|INFO||||||||||||W||%|`
(mirroring the Rust test `test_parse_info_incomplete`). -/
theorem claim_C9_witness :
    ∃ m, Message.try_from "|EFP1.1|INFO||||||||||||W||%|".toList = .ok m ∧
      m.piste = [] ∧ m.competition_id = [] ∧
      m.state = (get_field
        (generalFieldsOf (trimWs "|EFP1.1|INFO||||||||||||W||%|".toList)) 13).bind
        (fun s => exceptOk (ApparatusState.try_from s)) :=
  claim_C9 "|EFP1.1|INFO||||||||||||W||%|".toList "EFP1.1".toList
    "INFO".toList Command.Info (by decide) (by decide) (Or.inl rfl)
    (by decide) (by decide) (by decide) (by decide)

/-- Helper for C7: `getD` on a list of empty strings is empty. -/
theorem getD_of_all_empty (l : List Str) (j : Nat)
    (h : ∀ t ∈ l, t = []) : l.getD j [] = [] := by
  rw [List.getD_eq_getD_get?]
  cases hg : l.get? j with
  | none => rfl
  | some t => exact h t (List.get?_mem hg)

/-- Helper for C7: removing the trailing run of empty strings from a list
yields the shortest prefix that ends at the last non-empty entry. -/
theorem rtrimP_take_spec (l : List Str) :
    ∃ k, k ≤ l.length ∧ rtrimP List.isEmpty l = l.take k ∧
      (∀ j, k ≤ j → l.getD j [] = []) ∧
      (k = 0 ∨ l.getD (k - 1) [] ≠ []) := by
  induction l with
  | nil =>
    refine ⟨0, by simp, by simp [rtrimP_nil], ?_, Or.inl rfl⟩
    intro j hj
    rw [List.getD_eq_getD_get?]
    rfl
  | cons x xs ih =>
    obtain ⟨k, hk, htake, hbeyond, hlast⟩ := ih
    by_cases h : (rtrimP List.isEmpty xs).isEmpty
    · have hxs : ∀ t ∈ xs, t = [] := by
        have h1 := (rtrimP_eq_nil_iff List.isEmpty xs).mp (List.isEmpty_iff.mp h)
        intro t ht
        exact List.isEmpty_iff.mp (h1 t ht)
      by_cases hx : x.isEmpty
      · refine ⟨0, by simp, ?_, ?_, Or.inl rfl⟩
        · rw [rtrimP_cons, if_pos h, if_pos hx]
          rfl
        · intro j hj
          apply getD_of_all_empty
          intro t ht
          rcases List.mem_cons.mp ht with h1 | h1
          · exact h1 ▸ List.isEmpty_iff.mp hx
          · exact hxs t h1
      · refine ⟨1, by simp, ?_, ?_, Or.inr ?_⟩
        · rw [rtrimP_cons, if_pos h, if_neg hx]
          rfl
        · intro j hj
          cases j with
          | zero => omega
          | succ j' =>
            rw [List.getD_cons_succ]
            exact getD_of_all_empty xs j' hxs
        · rw [show (1 : Nat) - 1 = 0 from rfl, List.getD_cons_zero]
          simpa [List.isEmpty_iff] using hx
    · have hkpos : 1 ≤ k := by
        by_contra hk0
        push_neg at hk0
        have hk1 : k = 0 := by omega
        rw [hk1, List.take_zero] at htake
        rw [htake] at h
        exact h rfl
      refine ⟨k + 1, by simpa using hk, ?_, ?_, Or.inr ?_⟩
      · rw [rtrimP_cons, if_neg h, htake]
        rfl
      · intro j hj
        cases j with
        | zero => omega
        | succ j' =>
          rw [List.getD_cons_succ]
          exact hbeyond j' (by omega)
      · rw [show k + 1 - 1 = k from rfl]
        cases hkc : k with
        | zero => omega
        | succ k' =>
          rw [List.getD_cons_succ]
          rcases hlast with h1 | h1
          · omega
          · rw [hkc] at h1
            simpa using h1

/-- C7: `Fencer::serialize` renders the 12 fields in fixed order and removes
only the maximal trailing run of empty tokens: the serialized token list is
the shortest prefix of the 12-token rendering ending at the last non-empty
token, so non-empty fields keep their index and an empty token followed by a
later non-empty one is preserved. -/
theorem claim_C7 (f : Fencer) :
    ∃ k, k ≤ 12 ∧
      rtrimP List.isEmpty (Fencer.fieldList f) = (Fencer.fieldList f).take k ∧
      (∀ j, k ≤ j → (Fencer.fieldList f).getD j [] = []) ∧
      (k = 0 ∨ (Fencer.fieldList f).getD (k - 1) [] ≠ []) ∧
      Fencer.serialize f = joinSep '|' ((Fencer.fieldList f).take k) := by
  obtain ⟨k, hk, htake, hbeyond, hlast⟩ := rtrimP_take_spec (Fencer.fieldList f)
  have hlen : (Fencer.fieldList f).length = 12 := rfl
  refine ⟨k, hlen ▸ hk, htake, hbeyond, hlast, ?_⟩
  rw [Fencer.serialize, htake]

/-! Wire safety of decoded messages (needed for the round-trip claim C1). -/

theorem mem_trimMatches (pat : Char) (s : Str) (c : Char)
    (h : c ∈ trimMatches pat s) : c ∈ s := by
  unfold trimMatches at h
  have h1 := mem_of_mem_rtrimP _ _ _ h
  exact (List.dropWhile_sublist _).subset h1

theorem generalFieldsOf_token_clean (t : Str) (i : Nat) (tok : Str)
    (h : get_field (generalFieldsOf t) i = some tok) : cleanStr tok := by
  obtain ⟨hmem, hne⟩ := get_field_mem _ _ _ h
  unfold generalFieldsOf at hmem
  constructor
  · exact not_sep_mem_splitChar '|' _ tok hmem
  · intro hpc
    have h1 : '%' ∈ trimMatches '|' ((zonesOf t).headD []) :=
      mem_of_mem_splitChar '|' _ tok '%' hmem hpc
    have h2 : '%' ∈ (zonesOf t).headD [] := mem_trimMatches _ _ _ h1
    have h3 : (zonesOf t).headD [] ∈ splitChar '%' (trimMatches '|' t) :=
      headD_mem _ _ (splitChar_ne_nil '%' _)
    exact not_sep_mem_splitChar '%' _ _ h3 h2

theorem fencer_token_clean (t z : Str) (j i : Nat) (tok : Str)
    (hz : (zonesOf t).get? j = some z)
    (h : get_field (splitChar '|' (trimMatches '|' z)) i = some tok) :
    cleanStr tok := by
  obtain ⟨hmem, hne⟩ := get_field_mem _ _ _ h
  constructor
  · exact not_sep_mem_splitChar '|' _ tok hmem
  · intro hpc
    have h1 : '%' ∈ trimMatches '|' z :=
      mem_of_mem_splitChar '|' _ tok '%' hmem hpc
    have h2 : '%' ∈ z := mem_trimMatches _ _ _ h1
    have h3 : z ∈ splitChar '%' (trimMatches '|' t) := List.get?_mem hz
    exact not_sep_mem_splitChar '%' _ _ h3 h2

theorem cleanOpt_general (t : Str) (i : Nat) :
    cleanOpt (get_field (generalFieldsOf t) i) := by
  intro s hs
  exact generalFieldsOf_token_clean t i s hs

theorem fencerOfZone_wfStrings (t : Str) (j : Nat) :
    Fencer.wfStrings (fencerOfZone ((zonesOf t).get? j)) := by
  cases hz : (zonesOf t).get? j with
  | none =>
    refine ⟨?_, ?_, ?_⟩ <;> (intro s hs; cases hs)
  | some z =>
    refine ⟨?_, ?_, ?_⟩ <;>
      (intro s hs; exact fencer_token_clean t z j _ s hz hs)

/-- Every message produced by a successful decode is wire-safe. -/
theorem try_from_wfStrings (raw : Str) (m : Message)
    (h : Message.try_from raw = .ok m) : Message.wfStrings m := by
  obtain ⟨h0, p, ct, c, hg0, hor, hg1, hc, hm⟩ := try_from_inv raw m h
  subst hm
  unfold Message.wfStrings
  simp only [Message.parsed]
  have hclean : ∀ i, cleanStr ((get_field (generalFieldsOf (trimWs raw)) i).getD []) := by
    intro i
    cases hg : get_field (generalFieldsOf (trimWs raw)) i with
    | none => exact ⟨List.not_mem_nil _, List.not_mem_nil _⟩
    | some tok => exact generalFieldsOf_token_clean _ i tok hg
  refine ⟨hor, hclean 2, hclean 3, cleanOpt_general _ 5, cleanOpt_general _ 8,
    cleanOpt_general _ 9, cleanOpt_general _ 14, cleanOpt_general _ 15,
    cleanOpt_general _ 16, fencerOfZone_wfStrings _ 1, fencerOfZone_wfStrings _ 2⟩

/-! Wire safety of the rendered fields. -/

theorem natToStrAux_isDigit (fuel n : Nat) (c : Char)
    (h : c ∈ natToStrAux fuel n) : c.isDigit = true := by
  induction fuel generalizing n with
  | zero => cases h
  | succ fuel ih =>
    have hdig : ∀ d, d < 10 → (Nat.digitChar d).isDigit = true := by decide
    unfold natToStrAux at h
    by_cases hn : n < 10
    · rw [if_pos hn] at h
      rcases List.mem_singleton.mp h with rfl
      exact hdig n hn
    · rw [if_neg hn] at h
      rcases List.mem_append.mp h with h1 | h1
      · exact ih _ h1
      · rcases List.mem_singleton.mp h1 with rfl
        exact hdig (n % 10) (Nat.mod_lt n (by omega))

theorem natToStr_clean (n : Nat) : '|' ∉ natToStr n ∧ '%' ∉ natToStr n := by
  constructor <;>
    (intro h; have h1 := natToStrAux_isDigit _ _ _ h; exact absurd h1 (by decide))

theorem Command.fmt_clean (c : Command) :
    '|' ∉ Command.fmt c ∧ '%' ∉ Command.fmt c := by
  cases c <;> exact (by decide)

theorem Command.fmt_ne_nil (c : Command) : (Command.fmt c).isEmpty = false := by
  cases c <;> rfl

theorem optClean {β : Type} (o : Option β) (g : β → Str)
    (hg : ∀ b, '|' ∉ g b ∧ '%' ∉ g b) :
    '|' ∉ (o.map g).getD [] ∧ '%' ∉ (o.map g).getD [] := by
  cases o with
  | none => exact ⟨List.not_mem_nil _, List.not_mem_nil _⟩
  | some b => exact hg b

theorem optClean_str (o : Option Str) (ho : cleanOpt o) :
    '|' ∉ o.getD [] ∧ '%' ∉ o.getD [] := by
  cases o with
  | none => exact ⟨List.not_mem_nil _, List.not_mem_nil _⟩
  | some s => exact ho s rfl

theorem generalFieldList_clean (m : Message) (hwf : Message.wfStrings m) :
    ∀ f ∈ Message.generalFieldList m, '|' ∉ f ∧ '%' ∉ f := by
  obtain ⟨hp, hpiste, hcid, hpool, htime, hsw, hrid, hrname, hrnation, _, _⟩ := hwf
  intro f hf
  unfold Message.generalFieldList at hf
  simp only [List.mem_cons, List.not_mem_nil, or_false] at hf
  rcases hf with rfl | rfl | rfl | rfl | rfl | rfl | rfl | rfl | rfl | rfl |
    rfl | rfl | rfl | rfl | rfl | rfl | rfl
  · rcases hp with h | h <;> (rw [h]; exact (by decide))
  · exact Command.fmt_clean m.command
  · exact hpiste
  · exact hcid
  · exact optClean m.phase natToStr natToStr_clean
  · exact optClean_str m.pool_tableau hpool
  · exact optClean m.match_number natToStr natToStr_clean
  · exact optClean m.round natToStr natToStr_clean
  · exact optClean_str m.time htime
  · exact optClean_str m.stopwatch hsw
  · exact optClean m.competition_type CompetitionType.fmt
      (fun b => by cases b <;> exact (by decide))
  · exact optClean m.weapon Weapon.fmt (fun b => by cases b <;> exact (by decide))
  · exact optClean m.priority Priority.fmt (fun b => by cases b <;> exact (by decide))
  · exact optClean m.state ApparatusState.fmt
      (fun b => by cases b <;> exact (by decide))
  · exact optClean_str m.referee.id hrid
  · exact optClean_str m.referee.name hrname
  · exact optClean_str m.referee.nation hrnation

theorem fieldList_clean (f : Fencer) (hwf : Fencer.wfStrings f) :
    ∀ s ∈ Fencer.fieldList f, '|' ∉ s ∧ '%' ∉ s := by
  obtain ⟨hid, hname, hnation⟩ := hwf
  intro s hs
  unfold Fencer.fieldList at hs
  simp only [List.mem_cons, List.not_mem_nil, or_false] at hs
  rcases hs with rfl | rfl | rfl | rfl | rfl | rfl | rfl | rfl | rfl | rfl | rfl | rfl
  · exact optClean_str f.id hid
  · exact optClean_str f.name hname
  · exact optClean_str f.nation hnation
  · exact optClean f.score natToStr natToStr_clean
  · exact optClean f.status FencerStatus.fmt (fun b => by cases b <;> exact (by decide))
  · exact optClean f.yellow_card natToStr natToStr_clean
  · exact optClean f.red_card natToStr natToStr_clean
  · exact optClean f.light _ (fun b => by cases b <;> exact (by decide))
  · exact optClean f.white_light _ (fun b => by cases b <;> exact (by decide))
  · exact optClean f.medical natToStr natToStr_clean
  · exact optClean f.reserve Reserve.fmt (fun b => by cases b <;> exact (by decide))
  · exact optClean f.p_card PCard.fmt (fun b => by cases b <;> exact (by decide))

theorem serialize_percent_free (f : Fencer) (hwf : Fencer.wfStrings f) :
    '%' ∉ Fencer.serialize f := by
  intro h
  rcases mem_joinSep '|' _ '%' h with h1 | ⟨s, hs, hcs⟩
  · exact absurd h1 (by decide)
  · have h2 := mem_of_mem_rtrimP _ _ _ hs
    exact (fieldList_clean f hwf s h2).2 hcs

theorem general_join_percent_free (m : Message) (hwf : Message.wfStrings m) :
    '%' ∉ joinSep '|' (Message.generalFieldList m) := by
  intro h
  rcases mem_joinSep '|' _ '%' h with h1 | ⟨s, hs, hcs⟩
  · exact absurd h1 (by decide)
  · exact (generalFieldList_clean m hwf s hs).2 hcs

/-! Parsing the canonical rendering (claim C1). -/

theorem joinSep_cons_exists (sep : Char) (x : Str) (xs : List Str) :
    ∃ r, joinSep sep (x :: xs) = x ++ r := by
  cases xs with
  | nil => exact ⟨[], by simp [joinSep]⟩
  | cons y ys => exact ⟨sep :: joinSep sep (y :: ys), rfl⟩

theorem rtrimP_eq_self_of_getLast {α : Type} (p : α → Bool) (l : List α)
    (h : ∀ a, l.getLast? = some a → p a = false) : rtrimP p l = l := by
  rcases List.eq_nil_or_concat l with rfl | ⟨ys, y, rfl⟩
  · rfl
  · have hy : p y = false := h y (by rw [List.concat_eq_append]; exact List.getLast?_concat ys)
    rw [List.concat_eq_append]
    exact rtrimP_append_neg p ys y (by simp [hy])

theorem trimWs_wrap (u : Str) :
    trimWs ('|' :: (u ++ ['|'])) = '|' :: (u ++ ['|']) := by
  unfold trimWs
  rw [List.dropWhile_cons_of_neg (by decide)]
  rw [show '|' :: (u ++ ['|']) = ('|' :: u) ++ ['|'] by simp]
  exact rtrimP_append_neg _ _ _ (by decide)

theorem trimMatches_wrap (pat : Char) (u : Str)
    (hhead : ∀ a, u.head? = some a → a ≠ pat)
    (hlast : ∀ a, u.getLast? = some a → a ≠ pat) :
    trimMatches pat (pat :: (u ++ [pat])) = u := by
  unfold trimMatches
  rw [List.dropWhile_cons_of_pos (by simp)]
  cases u with
  | nil =>
    rw [List.nil_append]
    rw [show List.dropWhile (fun c => c == pat) [pat] = [] by simp]
    rfl
  | cons h0 u' =>
    have hne : h0 ≠ pat := hhead h0 rfl
    rw [List.cons_append, List.dropWhile_cons_of_neg (by simp [hne])]
    rw [← List.cons_append]
    rw [rtrimP_append_pos _ _ _ (by simp)]
    apply rtrimP_eq_self_of_getLast
    intro a ha
    simp [hlast a ha]

theorem get_field_split_trim_join (sep : Char) (fs : List Str)
    (hfree : ∀ f ∈ fs, sep ∉ f)
    (x : Str) (xs : List Str) (hfs : fs = x :: xs) (hx : x ≠ []) (i : Nat) :
    get_field (splitChar sep (trimMatches sep (joinSep sep fs ++ [sep]))) i =
      get_field fs i := by
  subst hfs
  obtain ⟨r, hr⟩ := joinSep_cons_exists sep x xs
  obtain ⟨c0, x', rfl⟩ : ∃ c0 x', x = c0 :: x' := by
    cases x with
    | nil => exact absurd rfl hx
    | cons c0 x' => exact ⟨c0, x', rfl⟩
  have hc0 : c0 ≠ sep := by
    intro h
    exact hfree _ (List.mem_cons_self _ _) (h ▸ List.mem_cons_self c0 x')
  have hs0 : joinSep sep ((c0 :: x') :: xs) ++ [sep] =
      c0 :: (x' ++ (r ++ [sep])) := by
    rw [hr]
    simp
  rw [hs0]
  unfold trimMatches
  rw [List.dropWhile_cons_of_neg (by simp [hc0])]
  rw [← hs0]
  rw [splitChar_rtrimP sep _ (by
    rw [hs0]
    exact ⟨c0, List.mem_cons_self _ _, hc0⟩)]
  rw [splitChar_append_sep]
  rw [splitChar_joinSep sep _ (by simp) hfree]
  rw [get_field_rtrimP, get_field_append_nil]

/-- Rendering a wire-safe message and decoding the result succeeds and
reproduces the protocol, command, piste and competition id. -/
theorem try_from_fmt (m : Message) (hwf : Message.wfStrings m) :
    ∃ m', Message.try_from (Message.fmt m) = .ok m' ∧
      m'.command = m.command ∧ m'.piste = m.piste ∧
      m'.competition_id = m.competition_id ∧ m'.protocol = m.protocol := by
  have hwf' := hwf
  obtain ⟨hp, hpis, hcid, hpool, htime, hstw, hrid, hrnm, hrnt, hrf, hlf⟩ := hwf'
  obtain ⟨pr, hpr⟩ : ∃ pr, m.protocol = 'E' :: pr := by
    rcases hp with h | h <;> (rw [h]; exact ⟨_, rfl⟩)
  obtain ⟨rest, hrest⟩ :
      ∃ rest, Message.generalFieldList m = m.protocol :: rest := ⟨_, rfl⟩
  obtain ⟨r0, hr0⟩ := joinSep_cons_exists '|' m.protocol rest
  have hfmt : Message.fmt m =
      '|' :: ((joinSep '|' (Message.generalFieldList m) ++ ['|', '%', '|'] ++
        Fencer.serialize m.right_fencer ++ ['|', '%', '|'] ++
        Fencer.serialize m.left_fencer ++ ['|', '%']) ++ ['|']) := by
    unfold Message.fmt
    simp
  have htrim : trimWs (Message.fmt m) = Message.fmt m := by
    rw [hfmt]
    exact trimWs_wrap _
  have h0 : (trimWs (Message.fmt m)).isEmpty = false := by
    rw [htrim, hfmt]
    rfl
  have huhead : joinSep '|' (Message.generalFieldList m) ++ ['|', '%', '|'] ++
      Fencer.serialize m.right_fencer ++ ['|', '%', '|'] ++
      Fencer.serialize m.left_fencer ++ ['|', '%'] =
      'E' :: (pr ++ r0 ++ (['|', '%', '|'] ++
        Fencer.serialize m.right_fencer ++ ['|', '%', '|'] ++
        Fencer.serialize m.left_fencer ++ ['|', '%'])) := by
    rw [hrest, hr0, hpr]
    simp
  have htm : trimMatches '|' (Message.fmt m) =
      joinSep '|' (Message.generalFieldList m) ++ ['|', '%', '|'] ++
        Fencer.serialize m.right_fencer ++ ['|', '%', '|'] ++
        Fencer.serialize m.left_fencer ++ ['|', '%'] := by
    rw [hfmt]
    apply trimMatches_wrap
    · intro a ha
      rw [huhead] at ha
      simp only [List.head?_cons, Option.some.injEq] at ha
      subst ha
      decide
    · intro a ha
      rw [show joinSep '|' (Message.generalFieldList m) ++ ['|', '%', '|'] ++
          Fencer.serialize m.right_fencer ++ ['|', '%', '|'] ++
          Fencer.serialize m.left_fencer ++ ['|', '%'] =
          (joinSep '|' (Message.generalFieldList m) ++ ['|', '%', '|'] ++
            Fencer.serialize m.right_fencer ++ ['|', '%', '|'] ++
            Fencer.serialize m.left_fencer ++ ['|']) ++ ['%'] by simp] at ha
      rw [List.getLast?_concat] at ha
      cases ha
      decide
  have hzsplit : splitChar '%' (joinSep '|' (Message.generalFieldList m) ++
      ['|', '%', '|'] ++ Fencer.serialize m.right_fencer ++ ['|', '%', '|'] ++
      Fencer.serialize m.left_fencer ++ ['|', '%']) =
      [joinSep '|' (Message.generalFieldList m) ++ ['|'],
       '|' :: (Fencer.serialize m.right_fencer ++ ['|']),
       '|' :: (Fencer.serialize m.left_fencer ++ ['|']), []] := by
    have hA : '%' ∉ joinSep '|' (Message.generalFieldList m) ++ ['|'] := by
      intro h
      rcases List.mem_append.mp h with h | h
      · exact general_join_percent_free m hwf h
      · simp at h
    have hB : '%' ∉ '|' :: (Fencer.serialize m.right_fencer ++ ['|']) := by
      intro h
      rcases List.mem_cons.mp h with h | h
      · exact absurd h (by decide)
      · rcases List.mem_append.mp h with h | h
        · exact serialize_percent_free _ hrf h
        · simp at h
    have hC : '%' ∉ '|' :: (Fencer.serialize m.left_fencer ++ ['|']) := by
      intro h
      rcases List.mem_cons.mp h with h | h
      · exact absurd h (by decide)
      · rcases List.mem_append.mp h with h | h
        · exact serialize_percent_free _ hlf h
        · simp at h
    rw [show joinSep '|' (Message.generalFieldList m) ++ ['|', '%', '|'] ++
        Fencer.serialize m.right_fencer ++ ['|', '%', '|'] ++
        Fencer.serialize m.left_fencer ++ ['|', '%'] =
        (joinSep '|' (Message.generalFieldList m) ++ ['|']) ++ '%' ::
          (('|' :: (Fencer.serialize m.right_fencer ++ ['|'])) ++ '%' ::
            (('|' :: (Fencer.serialize m.left_fencer ++ ['|'])) ++ '%' :: []))
        by simp]
    rw [splitChar_append_sep_cons '%' _ _ hA,
      splitChar_append_sep_cons '%' _ _ hB,
      splitChar_append_sep_cons '%' _ _ hC]
    rfl
  have hgf : ∀ i, get_field (generalFieldsOf (trimWs (Message.fmt m))) i =
      get_field (Message.generalFieldList m) i := by
    intro i
    unfold generalFieldsOf zonesOf
    rw [htrim, htm, hzsplit]
    simp only [List.headD_cons]
    exact get_field_split_trim_join '|' (Message.generalFieldList m)
      (fun f hf => (generalFieldList_clean m hwf f hf).1)
      m.protocol rest hrest (by rw [hpr]; simp) i
  have hpe : m.protocol.isEmpty = false := by
    rw [hpr]
    rfl
  have hg0 : get_field (Message.generalFieldList m) 0 = some m.protocol := by
    unfold get_field
    rw [hrest]
    rw [show (m.protocol :: rest).get? 0 = some m.protocol from rfl,
      Option.some_bind, if_neg (show ¬(m.protocol.isEmpty = true) by simp [hpe])]
  have hg1 : get_field (Message.generalFieldList m) 1 =
      some (Command.fmt m.command) := by
    unfold get_field
    rw [show (Message.generalFieldList m).get? 1 = some (Command.fmt m.command)
        from rfl,
      Option.some_bind,
      if_neg (show ¬((Command.fmt m.command).isEmpty = true) by
        simp [Command.fmt_ne_nil])]
  refine ⟨Message.parsed (trimWs (Message.fmt m)) m.protocol m.command,
    try_from_of_ok _ _ _ _ h0 ((hgf 0).trans hg0) hp ((hgf 1).trans hg1)
      (Command.fmt_try_from m.command), ?_, ?_, ?_, ?_⟩
  · simp only [Message.parsed]
  · simp only [Message.parsed]
    rw [hgf 2]
    have h2 : get_field (Message.generalFieldList m) 2 =
        if m.piste.isEmpty then none else some m.piste := by
      unfold get_field
      rw [show (Message.generalFieldList m).get? 2 = some m.piste from rfl,
        Option.some_bind]
    by_cases hpi : m.piste.isEmpty
    · rw [h2, if_pos hpi]
      exact (List.isEmpty_iff.mp hpi).symm
    · rw [h2, if_neg hpi]
      rfl
  · simp only [Message.parsed]
    rw [hgf 3]
    have h3 : get_field (Message.generalFieldList m) 3 =
        if m.competition_id.isEmpty then none else some m.competition_id := by
      unfold get_field
      rw [show (Message.generalFieldList m).get? 3 = some m.competition_id
          from rfl,
        Option.some_bind]
    by_cases hci : m.competition_id.isEmpty
    · rw [h3, if_pos hci]
      exact (List.isEmpty_iff.mp hci).symm
    · rw [h3, if_neg hci]
      rfl
  · simp only [Message.parsed]

/-- C1: for every message obtained from a successful decode, encoding it and
decoding the result succeeds and reproduces the same command, piste,
competition id and protocol (the mandatory-decoded field). -/
theorem claim_C1 (raw : Str) (m : Message)
    (h : Message.try_from raw = .ok m) :
    ∃ m', Message.try_from (Message.fmt m) = .ok m' ∧
      m'.command = m.command ∧ m'.piste = m.piste ∧
      m'.competition_id = m.competition_id ∧ m'.protocol = m.protocol :=
  try_from_fmt m (try_from_wfStrings raw m h)

/-- Witness for C1 at the concrete input `|EFP1.1|HELLO|17|fm-eq|%|`
(mirroring the Rust test `test_roundtrip_hello`). -/
theorem claim_C1_witness :
    Message.try_from "|EFP1.1|HELLO|17|fm-eq|%|".toList = .ok msgHello ∧
      ∃ m', Message.try_from (Message.fmt msgHello) = .ok m' ∧
        m'.command = msgHello.command ∧ m'.piste = msgHello.piste ∧
        m'.competition_id = msgHello.competition_id ∧
        m'.protocol = msgHello.protocol :=
  ⟨by decide, claim_C1 "|EFP1.1|HELLO|17|fm-eq|%|".toList msgHello (by decide)⟩

end Cyrano
